import Mathlib

set_option maxHeartbeats 1000000
set_option maxRecDepth 100000

namespace Corncobs

/-- One byte of a Python `bytes` object, kept as an unbounded natural;
the code masks with `0xFF` where it matters. -/

abbrev Bytes := List Nat

instance {ε : Type u} {α : Type v} [DecidableEq ε] [DecidableEq α] :
    DecidableEq (Except ε α)
  | .error e, .error f =>
    if h : e = f then .isTrue (h ▸ rfl) else .isFalse fun hc => h (Except.error.inj hc)
  | .error _, .ok _ => .isFalse fun hc => Except.noConfusion hc
  | .ok _, .error _ => .isFalse fun hc => Except.noConfusion hc
  | .ok a, .ok b =>
    if h : a = b then .isTrue (h ▸ rfl) else .isFalse fun hc => h (Except.ok.inj hc)

/-! ## Checksum (`crc16` in `corncobs.py`, lines 164-181)

`crc16` is embedded statement by statement: `crcRound` is one iteration of the
inner `for _ in range(0, 8)` loop (Python truthiness of the `if` test is
"value is nonzero"), `crcBits` runs `n` such iterations while shifting
`cur_byte`, `crcByte` is the body of the outer `for b in data` loop including
the `cur_byte = 0xFF & b` mask, and `crcFold` is the outer loop itself.
Python's `~crc & 0xFFFF` on a nonnegative machine integer equals
`0xFFFF ^^^ crc` whenever `crc < 2 ^ 16`, an invariant of the loop proved
below; `struct.pack('=H', x)` on a little-endian host serializes as
`[x % 256, x / 256 % 256]`. -/

def crcRound (crc cur : Nat) : Nat :=
  if (crc &&& 1) ^^^ (cur &&& 1) ≠ 0 then (crc >>> 1) ^^^ 0x8408 else crc >>> 1

def crcBits : Nat → Nat → Nat → Nat
  | 0, crc, _ => crc
  | n + 1, crc, cur => crcBits n (crcRound crc cur) (cur >>> 1)

def crcByte (crc b : Nat) : Nat := crcBits 8 crc (0xFF &&& b)

def crcFold (crc : Nat) (data : Bytes) : Nat := data.foldl crcByte crc

def crcOut (c : Nat) : Bytes :=
  let c1 := 0xFFFF ^^^ c
  let c2 := ((c1 <<< 8) ||| ((c1 >>> 8) &&& 0xFF)) &&& 0xFFFF
  [c2 % 256, c2 / 256 % 256]

def crc16 (data : Bytes) : Bytes := crcOut (crcFold 0xFFFF data)

/-- The checksum algorithm as §4.1 of the spec words it, written independently
of `crc16`: starting from `0xFFFF`, for each byte 8 rounds keyed on whether
the low bit of the running CRC and the low bit of the remaining byte
(`b / 2 ^ j`) differ, then bitwise inversion of the 16-bit result
(`65535 - c`), a swap of its high and low bytes, and 2-byte serialization. -/

def crcRoundSpec (b crc j : Nat) : Nat :=
  if crc % 2 ≠ b / 2 ^ j % 2 then crc / 2 ^^^ 0x8408 else crc / 2

def crcByteSpec (crc b : Nat) : Nat := (List.range 8).foldl (crcRoundSpec b) crc

def crc16Spec (data : Bytes) : Bytes :=
  let c := data.foldl crcByteSpec 0xFFFF
  let inv := 65535 - c
  let swapped := inv % 256 * 256 + inv / 256
  [swapped % 256, swapped / 256 % 256]

/-! ## Frame Codec (the external `cobs` library)

The byte-stuffing transform is an imported primitive in `corncobs.py`
(`from cobs import cobs`); §4.2 of the spec treats it as a black box
implementing standard COBS.  `cobsEncode`/`cobsDecode` model the Python
`cobs` package: encode splits the input into zero-free groups of at most
254 bytes, each prefixed by its length + 1, with length byte `0xFF`
marking a full group carrying no implied zero; decode inverts this and
fails (`DecodeError`, modelled as `Except.error ()`) on a zero length
byte, a zero inside a group, or a truncated group. -/

def cobsEncode (l : Bytes) : Bytes :=
  let block := (l.takeWhile (· ≠ 0)).take 254
  if h254 : block.length = 254 then
    match hr1 : l.drop block.length with
    | [] => 255 :: block
    | _ :: _ => (255 :: block) ++ cobsEncode (l.drop block.length)
  else
    match hr : l.drop block.length with
    | [] => (block.length + 1) :: block
    | _ :: rest2 => ((block.length + 1) :: block) ++ cobsEncode rest2
termination_by l.length
decreasing_by
· have h1 := congrArg List.length hr1
  simp only [List.length_drop, List.length_cons] at h1 ⊢
  have h2 : (List.take 254 (List.takeWhile (fun x => decide (x ≠ 0)) l)).length = 254 := h254
  omega
· have h1 := congrArg List.length hr
  simp only [List.length_drop, List.length_cons] at h1
  omega

def cobsDecodeGo : Nat → Bytes → Except Unit Bytes
  | 0, _ => .error ()
  | _ + 1, [] => .ok []
  | fuel + 1, code :: rest =>
    if code = 0 then .error ()
    else
      let block := rest.take (code - 1)
      if block.length < code - 1 then .error ()
      else if block.contains 0 then .error ()
      else
        match rest.drop (code - 1) with
        | [] => .ok block
        | r :: rest2 =>
          match cobsDecodeGo fuel (r :: rest2) with
          | .error e => .error e
          | .ok out => .ok (block ++ (if code < 255 then [0] else []) ++ out)

def cobsDecode (l : Bytes) : Except Unit Bytes := cobsDecodeGo (l.length + 1) l

/-- Result of one `self._read_stream(1)` call inside `StreamCOBS.read`:
either a returned chunk of at most one byte (`[]` meaning end of stream, as
the spec's stream contract puts it) or a raised exception, which both read
loops catch and retry.  A stream is modelled as the finite list of results
its successive 1-byte reads produce; once the list is exhausted the stream
keeps reporting end-of-stream (`[]`), matching `io.BytesIO` and pyserial
behavior at end of data. -/

inductive ReadEv where
  | chunk (bs : Bytes)
  | raised
deriving DecidableEq

abbrev Stream1 := List ReadEv

def readStep : Stream1 → ReadEv × Stream1
  | [] => (.chunk [], [])
  | e :: rest => (e, rest)

/-- Synchronization phase of `StreamCOBS.read`: `for i in range(max_bytes - 5)`
read one byte, `continue` on exception, `break` on `b'\0'`; falling off the
loop hits the `for`-`else` and returns `None` (`none` here).  On success the
remaining stream is returned for the accumulation phase. -/

def syncPhase : Nat → Stream1 → Option Stream1
  | 0, _ => none
  | n + 1, s =>
    match readStep s with
    | (.raised, s') => syncPhase n s'
    | (.chunk bs, s') => if bs = [0] then some s' else syncPhase n s'

/-- Accumulation phase of `StreamCOBS.read` (the `while True` loop): read one
byte, retrying on exception; a chunk other than `b'\x00'` is rejected
(returning `None`) when `count == max_bytes` or the chunk is empty, and
appended otherwise; a `b'\x00'` chunk terminates, yielding the raw buffer.
On the exhausted stream every read yields `[]`, which the loop immediately
rejects, so recursion on the event list is faithful to the Python loop. -/

def accumPhase (maxBytes : Nat) : Bytes → Nat → Stream1 → Option Bytes
  | _, _, [] => none
  | raw, count, e :: s' =>
    match e with
    | .raised => accumPhase maxBytes raw count s'
    | .chunk bs =>
      if bs ≠ [0] then
        if count = maxBytes ∨ bs.length = 0 then none
        else accumPhase maxBytes (raw ++ [bs.headD 0]) (count + 1) s'
      else some raw

/-- `StreamCOBS.read(max_bytes=255)`: synchronization, then accumulation, then
the length-2 guard and COBS decoding; `none` is the "no frame" sentinel, and
`Except.error` is a propagated `DecodeError`. -/

def StreamCOBS.read (maxBytes : Nat) (s : Stream1) : Except Unit (Option Bytes) :=
  match syncPhase (maxBytes - 5) s with
  | none => .ok none
  | some s' =>
    match accumPhase maxBytes [] 0 s' with
    | none => .ok none
    | some raw =>
      if raw.length < 2 then .ok none
      else (cobsDecode raw).map (fun d => some d)

/-- One `self._write_stream(data)` call: the chunk joins the log of chunks
written so far and the reported count is whatever the underlying stream's
`write` returns, modelled by `rep`. -/

def writeStream (rep : Bytes → Int) (log : List Bytes) (chunk : Bytes) :
    List Bytes × Int :=
  (log ++ [chunk], rep chunk)

/-- `StreamCOBS.write`: build `b'\0' + cobs.encode(data) + b'\0'`, issue one
underlying write with it, return the underlying report. -/

def StreamCOBS.write (rep : Bytes → Int) (log : List Bytes) (data : Bytes) :
    List Bytes × Int :=
  let encoded := [0] ++ cobsEncode data ++ [0]
  writeStream rep log encoded

/-! ## Record Schema & Record (`DataPacket`, lines 12-160)

Python values that can appear in a `DataPacket` value map: `int`, `float`
(an IEEE-754 binary64, represented by its 64-bit pattern), and `bytes`.
`struct.pack`/`struct.unpack` with the format characters `f B H I b h i s`
of the `datatypes` table (little-endian `'<'` layout) are modelled below;
float conversions are genuine IEEE-754 round-to-nearest-even implemented
over `ℚ`. -/

inductive PyValue where
  | int (n : Int)
  | float (bits : Nat)
  | bytes (bs : Bytes)
deriving DecidableEq

/-- Python error surface relevant to `DataPacket`: `ValueError msg` covers
all the explicit `raise ValueError(...)` sites including the CRC failure;
`structError` and `overflowError` come from the `struct` module; `keyError`
from the failing dictionary lookup in `pack`'s generator expression. -/

inductive PyErr where
  | valueError (msg : String)
  | structError
  | overflowError
  | keyError (k : String)
deriving DecidableEq

/-- `a * 2 ^ k` for an integer exponent `k`. -/

def qmul2 (a : ℚ) (k : Int) : ℚ :=
  if 0 ≤ k then a * (2 : ℚ) ^ k.toNat else a / (2 : ℚ) ^ (-k).toNat

def pow2le (e : Int) (a : ℚ) : Bool := decide (qmul2 1 e ≤ a)

/-- `Nat.log2`, restated with structural recursion on a fuel bound so that
concrete instances reduce inside the kernel. -/

def log2Go : Nat → Nat → Nat
  | 0, _ => 0
  | fuel + 1, n => if n ≥ 2 then log2Go fuel (n / 2) + 1 else 0

def log2N (n : Nat) : Nat := log2Go n n

/-- `⌊log₂ a⌋` for positive rationals: a first guess from the binary logs of
numerator and denominator, corrected inside the guaranteed ±2 window. -/

def floorLog2Q (a : ℚ) : Int :=
  let g : Int := (log2N a.num.natAbs : Int) - (log2N a.den : Int)
  if pow2le (g + 2) a then g + 2
  else if pow2le (g + 1) a then g + 1
  else if pow2le g a then g
  else if pow2le (g - 1) a then g - 1
  else g - 2

/-- Round a nonnegative rational to the nearest integer, ties to even. -/

def rneZ (q : ℚ) : Int :=
  let f := Rat.floor q
  let r := q - f
  if r < 1 / 2 then f
  else if 1 / 2 < r then f + 1
  else if f % 2 = 0 then f else f + 1

/-- Round the magnitude `a ≥ 0` into an IEEE binary format with `fracBits`
fraction bits and `expBits` exponent bits (round to nearest, ties to even),
subnormals included; `sign` is the sign bit.  `none` marks overflow beyond
the largest finite value (the `OverflowError` path of CPython's float
packing). -/

def roundToFmt (fracBits expBits : Nat) (sign : Bool) (a : ℚ) : Option Nat :=
  let bias : Int := 2 ^ (expBits - 1) - 1
  let signBit : Nat := if sign then 2 ^ (fracBits + expBits) else 0
  if a ≤ 0 then some signBit
  else
    let e := max (floorLog2Q a) (1 - bias)
    let m0 := (rneZ (qmul2 a ((fracBits : Int) - e))).toNat
    let m := if m0 = 2 ^ (fracBits + 1) then m0 / 2 else m0
    let e1 : Int := if m0 = 2 ^ (fracBits + 1) then e + 1 else e
    if m < 2 ^ fracBits then some (signBit + m)
    else if e1 + bias ≥ 2 ^ expBits - 1 then none
    else some (signBit + (e1 + bias).toNat * 2 ^ fracBits + (m - 2 ^ fracBits))

def f64Sign (b : Nat) : Nat := b >>> 63 &&& 1

def f64Exp (b : Nat) : Nat := b >>> 52 &&& 0x7FF

def f64Frac (b : Nat) : Nat := b &&& (2 ^ 52 - 1)

def f64IsNaN (b : Nat) : Bool := f64Exp b == 0x7FF && f64Frac b != 0

def f64IsInf (b : Nat) : Bool := f64Exp b == 0x7FF && f64Frac b == 0

/-- Exact rational value of a finite binary64 bit pattern. -/

def f64Val (b : Nat) : ℚ :=
  let mag : ℚ :=
    if f64Exp b = 0 then qmul2 ((f64Frac b : Nat) : ℚ) (-1074)
    else qmul2 (((2 ^ 52 + f64Frac b : Nat) : ℚ)) ((f64Exp b : Int) - 1075)
  if f64Sign b = 1 then -mag else mag

/-- Widening conversion of a binary32 pattern to binary64 — exact, as the C
`double` cast performed by `struct.unpack('<f', ...)`. -/

def f32ToF64 (w : Nat) : Nat :=
  let sign := w >>> 31 &&& 1
  let e := w >>> 23 &&& 0xFF
  let f := w &&& (2 ^ 23 - 1)
  if e = 0xFF then sign <<< 63 ||| (0x7FF <<< 52) ||| (f <<< 29)
  else if e = 0 then
    if f = 0 then sign <<< 63
    else
      let k := log2N f
      sign <<< 63 ||| ((k + 874) <<< 52) ||| ((f - 2 ^ k) <<< (52 - k))
  else sign <<< 63 ||| ((e + 896) <<< 52) ||| (f <<< 29)

def le16 (w : Nat) : Bytes := [w % 256, w / 256 % 256]

def le32 (w : Nat) : Bytes :=
  [w % 256, w / 256 % 256, w / 65536 % 256, w / 16777216 % 256]

/-- Narrowing a binary64 pattern to binary32 the way CPython's
`struct.pack('<f', x)` does: round to nearest (ties to even); a finite
double rounding beyond the binary32 range raises `OverflowError`;
infinities map across; NaN maps to the canonical quiet NaN. -/

def f64ToF32 (b : Nat) : Except PyErr Nat :=
  if f64IsNaN b then .ok ((f64Sign b <<< 31) ||| 0x7FC00000)
  else if f64IsInf b then .ok ((f64Sign b <<< 31) ||| 0x7F800000)
  else
    let q := f64Val b
    match roundToFmt 23 8 (f64Sign b = 1) (if q < 0 then -q else q) with
    | none => .error .overflowError
    | some w => .ok w

/-- Python `float(n)` on an `int`: nearest binary64, `OverflowError` when the
integer exceeds the double range. -/

def intToF64 (n : Int) : Except PyErr Nat :=
  match roundToFmt 52 11 (decide (n < 0)) ((n.natAbs : ℚ)) with
  | none => .error .overflowError
  | some b => .ok b

/-! ### `struct` codec for one field -/

def fieldSize : Char → Nat
  | 'f' => 4
  | 'B' => 1
  | 'H' => 2
  | 'I' => 4
  | 'b' => 1
  | 'h' => 2
  | 'i' => 4
  | 's' => 1
  | _ => 0

def calcsizeChars (fmt : List Char) : Nat := (fmt.map fieldSize).sum

/-- `struct.pack` of a single little-endian field: integer formats check
their range (`struct.error` otherwise, and non-integers are rejected),
`'f'` accepts floats and ints via the binary32 conversion, `'s'` (count 1)
truncates or zero-pads the given bytes to exactly one byte. -/

def packField : Char → PyValue → Except PyErr Bytes
  | 'B', .int n => if 0 ≤ n ∧ n < 256 then .ok [n.toNat] else .error .structError
  | 'H', .int n => if 0 ≤ n ∧ n < 65536 then .ok (le16 n.toNat) else .error .structError
  | 'I', .int n =>
    if 0 ≤ n ∧ n < 4294967296 then .ok (le32 n.toNat) else .error .structError
  | 'b', .int n =>
    if -128 ≤ n ∧ n < 128 then .ok [(n % 256).toNat] else .error .structError
  | 'h', .int n =>
    if -32768 ≤ n ∧ n < 32768 then .ok (le16 (n % 65536).toNat)
    else .error .structError
  | 'i', .int n =>
    if -2147483648 ≤ n ∧ n < 2147483648 then .ok (le32 (n % 4294967296).toNat)
    else .error .structError
  | 'f', .float b => (f64ToF32 b).map le32
  | 'f', .int n =>
    match intToF64 n with
    | .error e => .error e
    | .ok b => (f64ToF32 b).map le32
  | 's', .bytes bs => .ok [bs.headD 0]
  | _, _ => .error .structError

def leVal (bs : Bytes) : Nat := bs.foldr (fun b acc => b + 256 * acc) 0

def toSigned (w bits : Nat) : Int :=
  if w < 2 ^ (bits - 1) then (w : Int) else (w : Int) - 2 ^ bits

/-- `struct.unpack` of a single little-endian field from exactly
`fieldSize c` bytes. -/

def unpackField (c : Char) (bs : Bytes) : PyValue :=
  match c with
  | 'B' => .int (leVal bs)
  | 'H' => .int (leVal bs)
  | 'I' => .int (leVal bs)
  | 'b' => .int (toSigned (leVal bs) 8)
  | 'h' => .int (toSigned (leVal bs) 16)
  | 'i' => .int (toSigned (leVal bs) 32)
  | 'f' => .float (f32ToF64 (leVal bs))
  | 's' => .bytes bs
  | _ => .int 0

def structPack : List Char → List PyValue → Except PyErr Bytes
  | [], [] => .ok []
  | c :: fs, v :: vs =>
    match packField c v with
    | .error e => .error e
    | .ok b =>
      match structPack fs vs with
      | .error e => .error e
      | .ok r => .ok (b ++ r)
  | _, _ => .error .structError

def structUnpackAux : List Char → Bytes → List PyValue
  | [], _ => []
  | c :: fs, data =>
    unpackField c (data.take (fieldSize c)) :: structUnpackAux fs (data.drop (fieldSize c))

/-- `struct.unpack(fmt, data)`: the buffer must match `struct.calcsize`
exactly, else `struct.error`; then the fields are decoded in order. -/

def structUnpack (fmt : List Char) (data : Bytes) : Except PyErr (List PyValue) :=
  if data.length = calcsizeChars fmt then .ok (structUnpackAux fmt data)
  else .error .structError

/-! ### Python dicts (insertion-ordered, unique keys) -/

abbrev Dict := List (String × PyValue)

def dictKeys (d : Dict) : List String := d.map Prod.fst

def dictGet : Dict → String → Option PyValue
  | [], _ => none
  | (k, v) :: rest, key => if k = key then some v else dictGet rest key

/-- `d[key] = v` on a Python dict: update in place if the key exists,
append otherwise. -/

def dictSet (d : Dict) (key : String) (v : PyValue) : Dict :=
  if (dictKeys d).contains key then
    d.map fun kv => if kv.1 = key then (key, v) else kv
  else d ++ [(key, v)]

def dictMerge (d : Dict) (kvs : List (String × PyValue)) : Dict :=
  kvs.foldl (fun acc kv => dictSet acc kv.1 kv.2) d

/-- Python `==` on modelled values: numbers compare numerically (`int` with
`float` too), `bytes` bytewise; NaN is unequal to everything, infinities
equal only to themselves; number/bytes comparisons are `False`. -/

def pyEq : PyValue → PyValue → Bool
  | .int a, .int b => a == b
  | .bytes a, .bytes b => a == b
  | .int a, .float b | .float b, .int a =>
    !f64IsNaN b && !f64IsInf b && decide (f64Val b = (a : ℚ))
  | .float a, .float b =>
    if f64IsNaN a || f64IsNaN b then false
    else if f64IsInf a || f64IsInf b then a == b
    else decide (f64Val a = f64Val b)
  | _, _ => false

/-- Python `==` on dicts with unique keys: same key sets, `pyEq`-equal
values. -/

def pyDictEq (a b : Dict) : Bool :=
  (a.all fun kv =>
    match dictGet b kv.1 with
    | some v => pyEq kv.2 v
    | none => false) &&
  (b.all fun kv => (dictKeys a).contains kv.1)

/-! ### The `DataPacket` state and methods -/

structure Packet where
  fields : List String
  fmt : List Char
  values : Option Dict
deriving DecidableEq

/-- The `DataPacket.datatypes` table. -/

def datatypes : List (String × Char) :=
  [("float32", 'f'), ("float", 'f'), ("uint8", 'B'), ("uint16", 'H'),
   ("uint32", 'I'), ("int8", 'b'), ("int16", 'h'), ("int32", 'i'),
   ("string", 's')]

def lookupType (t : String) : Option Char :=
  (datatypes.find? fun kv => kv.1 = t).map Prod.snd

/-- `DataPacket.__init__(definition)` without initial values: validate every
type tag in order (unknown tag raises `ValueError`) and build `fields` and
the format list (the `'<'` prefix is implicit in the little-endian field
codecs). -/

def mkPacket : List (String × String) → Except PyErr Packet
  | [] => .ok { fields := [], fmt := [], values := none }
  | (n, t) :: rest =>
    match lookupType t with
    | none => .error (.valueError "Invalid datatype")
    | some c =>
      match mkPacket rest with
      | .error e => .error e
      | .ok p => .ok { p with fields := n :: p.fields, fmt := c :: p.fmt }

inductive InitArg where
  | map (m : Dict)
  | seq (l : List PyValue)
  | other
deriving DecidableEq

/-- `DataPacket.init(values)`: a mapping must only use schema field names
(`self.values = dict(values)`); a sequence must match the field count
(`self.values = {f: v for f, v in zip(...)}`); anything else is rejected.
The method returns the new state with the outcome; every error path leaves
the state untouched because the Python method assigns `self.values` only at
its success points. -/

def Packet.init (p : Packet) (a : InitArg) : Packet × Except PyErr Unit :=
  match a with
  | .map m =>
    if m.all fun kv => p.fields.contains kv.1 then
      ({ p with values := some m }, .ok ())
    else (p, .error (.valueError "Key name mismatch"))
  | .seq l =>
    if l.length = p.fields.length then
      ({ p with values := some (dictMerge [] (List.zip p.fields l)) }, .ok ())
    else (p, .error (.valueError "Number of values does not match number of fields"))
  | .other =>
    (p, .error (.valueError "Input to init() should be either a sequence or a mapping"))

/-- The generator `(self.values[f_name] for f_name in self.fields)` as forced
by `struct.pack(self.fmt, *values)`: looks every field up in order, raising
`KeyError` at the first missing one. -/

def fieldsLookup (d : Dict) : List String → Except PyErr (List PyValue)
  | [] => .ok []
  | f :: fs =>
    match dictGet d f with
    | none => .error (.keyError f)
    | some v =>
      match fieldsLookup d fs with
      | .error e => .error e
      | .ok vs => .ok (v :: vs)

/-- `DataPacket.pack()` after the optional re-`init` (see `Packet.pack`):
initialization check, field lookup, `struct.pack`, checksum append. -/

def Packet.packNow (p : Packet) : Packet × Except PyErr Bytes :=
  match p.values with
  | none => (p, .error (.valueError "Data packet not initialized!"))
  | some d =>
    match fieldsLookup d p.fields with
    | .error e => (p, .error e)
    | .ok vs =>
      match structPack p.fmt vs with
      | .error e => (p, .error e)
      | .ok data => (p, .ok (data ++ crc16 data))

/-- `DataPacket.pack(values=None)`. -/

def Packet.pack (p : Packet) (arg : Option InitArg) : Packet × Except PyErr Bytes :=
  match arg with
  | none => p.packNow
  | some a =>
    match p.init a with
    | (p1, .error e) => (p1, .error e)
    | (p1, .ok ()) => p1.packNow

/-- `DataPacket.unpack(buffer)`: split the 2-byte trailer (`buffer[-2:]` /
`buffer[:-2]` with Python slicing semantics), verify the checksum
(`ValueError('CRC checksum failed!')` on mismatch), `struct.unpack`, write
the decoded fields into the value map (creating it if absent), and return
the `dict(self.values)` snapshot. -/

def Packet.unpack (p : Packet) (buffer : Bytes) : Packet × Except PyErr Dict :=
  let crc := buffer.drop (buffer.length - 2)
  let data := buffer.take (buffer.length - 2)
  if crc16 data ≠ crc then (p, .error (.valueError "CRC checksum failed!"))
  else
    match structUnpack p.fmt data with
    | .error e => (p, .error e)
    | .ok vs =>
      let d := dictMerge (p.values.getD []) (List.zip p.fields vs)
      ({ p with values := some d }, .ok d)

/-- `DataPacket.unpack_from(stream)`: `stream.read()` yields either `None`
or a byte string (possibly empty); `unpack` runs only on the latter. -/

def Packet.unpack_from (p : Packet) (data : Option Bytes) :
    Packet × Except PyErr (Option Dict) :=
  match data with
  | some d =>
    match p.unpack d with
    | (p1, .error e) => (p1, .error e)
    | (p1, .ok snap) => (p1, .ok (some snap))
  | none => (p, .ok none)

/-- `DataPacket.calcsize()` = `struct.calcsize(self.fmt)`. -/

def Packet.calcsize (p : Packet) : Nat := calcsizeChars p.fmt

/-- One field value surviving its `struct` encode/decode under Python
equality. -/

def fieldRoundtrips (c : Char) (v : PyValue) : Bool :=
  match packField c v with
  | .ok b => pyEq (unpackField c b) v
  | .error _ => false

/-! ## Verification of the claims -/

/-! ## Verification of the claims -/

lemma xor_ne_zero_iff (x y : Nat) : x ^^^ y ≠ 0 ↔ x ≠ y := by
  constructor
  · intro h hxy
    exact h (hxy ▸ Nat.xor_self y)
  · intro h hz
    exact h (Nat.eq_of_testBit_eq fun i => by
      have := congrArg (fun n => Nat.testBit n i) hz
      simp only [Nat.testBit_xor, Nat.zero_testBit] at this
      exact bne_eq_false_iff_eq.mp this)

lemma crcRound_eq_spec (c b j : Nat) (hj : j < 8) :
    crcRound c ((0xFF &&& b) >>> j) = crcRoundSpec b c j := by
  have hff : (0xFF : Nat) = 2 ^ 8 - 1 := by norm_num
  have hcur : ((0xFF &&& b) >>> j) &&& 1 = b / 2 ^ j % 2 := by
    rw [Nat.and_one_is_mod, Nat.shiftRight_eq_div_pow, Nat.and_comm, hff,
      Nat.and_pow_two_sub_one_eq_mod]
    have hsplit : (2 : Nat) ^ 8 = 2 ^ j * 2 ^ (8 - j) := by
      rw [← pow_add]
      congr 1
      omega
    rw [hsplit, Nat.mod_mul_right_div_self]
    exact Nat.mod_mod_of_dvd _ (dvd_pow_self 2 (by omega))
  unfold crcRound crcRoundSpec
  rw [Nat.and_one_is_mod, hcur, Nat.shiftRight_one]
  by_cases hc : c % 2 = b / 2 ^ j % 2
  · rw [hc, Nat.xor_self]
    simp
  · have : c % 2 ^^^ b / 2 ^ j % 2 ≠ 0 := (xor_ne_zero_iff _ _).mpr hc
    simp [this, hc]

lemma crcBits_eq_spec (b : Nat) :
    ∀ n j c, n + j = 8 → crcBits n c ((0xFF &&& b) >>> j) =
      (List.range' j n).foldl (crcRoundSpec b) c := by
  intro n
  induction n with
  | zero => intro j c _; rfl
  | succ m ih =>
    intro j c hnj
    have hshift : ((0xFF &&& b) >>> j) >>> 1 = (0xFF &&& b) >>> (j + 1) := by
      rw [Nat.shiftRight_add]
    have hrange : List.range' j (m + 1) = j :: List.range' (j + 1) m := rfl
    rw [hrange]
    show crcBits m (crcRound c ((0xFF &&& b) >>> j)) (((0xFF &&& b) >>> j) >>> 1) =
      List.foldl (crcRoundSpec b) (crcRoundSpec b c j) (List.range' (j + 1) m)
    rw [hshift, crcRound_eq_spec c b j (by omega), ih (j + 1) _ (by omega)]

lemma crcByte_eq_spec : crcByte = crcByteSpec := by
  funext c b
  have h0 : (0xFF &&& b) >>> 0 = 0xFF &&& b := Nat.shiftRight_zero
  have := crcBits_eq_spec b 8 0 c (by omega)
  rw [h0] at this
  rw [crcByte, this, crcByteSpec, List.range_eq_range']

lemma crcRound_lt (c cur : Nat) (h : c < 65536) : crcRound c cur < 65536 := by
  unfold crcRound
  have hs : c >>> 1 < 32768 := by
    rw [Nat.shiftRight_one]
    omega
  split
  · have : c >>> 1 < 2 ^ 16 := by omega
    have hx : (0x8408 : Nat) < 2 ^ 16 := by norm_num
    have := Nat.xor_lt_two_pow this hx
    omega
  · omega

lemma crcBits_lt (n : Nat) : ∀ c cur, c < 65536 → crcBits n c cur < 65536 := by
  induction n with
  | zero => intro c cur h; exact h
  | succ m ih => intro c cur h; exact ih _ _ (crcRound_lt c cur h)

lemma crcFold_lt (data : Bytes) : ∀ c, c < 65536 → crcFold c data < 65536 := by
  induction data with
  | nil => intro c h; exact h
  | cons x xs ih => intro c h; exact ih _ (crcBits_lt 8 c _ h)

lemma xor_ffff {c : Nat} (h : c < 65536) : 0xFFFF ^^^ c = 65535 - c := by
  have h' : c < 2 ^ 16 := by omega
  have e1 : (65535 : Nat) - c = 2 ^ 16 - (c + 1) := by omega
  rw [e1]
  apply Nat.eq_of_testBit_eq
  intro i
  rw [Nat.testBit_xor, Nat.testBit_two_pow_sub_succ h',
    show (0xFFFF : Nat) = 2 ^ 16 - 1 by norm_num, Nat.testBit_two_pow_sub_one]
  by_cases hi : i < 16
  · simp [hi]
  · have hc : c < 2 ^ i :=
      lt_of_lt_of_le h' (Nat.pow_le_pow_right (by norm_num) (by omega))
    simp [hi, Nat.testBit_lt_two_pow hc]

lemma swap_bridge {c : Nat} (h : c < 65536) :
    ((c <<< 8) ||| ((c >>> 8) &&& 0xFF)) &&& 0xFFFF = c % 256 * 256 + c / 256 := by
  have hdiv : c >>> 8 = c / 256 := by
    rw [Nat.shiftRight_eq_div_pow]
  have hdlt : c / 256 < 2 ^ 8 := by omega
  have hmask : (c / 256) &&& 0xFF = c / 256 := by
    rw [show (0xFF : Nat) = 2 ^ 8 - 1 by norm_num]
    exact Nat.and_pow_two_sub_one_of_lt_two_pow hdlt
  have hshl : c <<< 8 = 2 ^ 8 * c := by
    rw [Nat.shiftLeft_eq]
    ring
  have hor : 2 ^ 8 * c ||| c / 256 = 2 ^ 8 * c + c / 256 :=
    (Nat.mul_add_lt_is_or hdlt c).symm
  rw [hdiv, hmask, hshl, hor, show (0xFFFF : Nat) = 2 ^ 16 - 1 by norm_num,
    Nat.and_pow_two_sub_one_eq_mod]
  have : (2 : Nat) ^ 8 = 256 := by norm_num
  rw [this]
  have : (2 : Nat) ^ 16 = 65536 := by norm_num
  rw [this]
  omega

theorem crc16_meets_spec :
    ∀ data : Bytes, crc16 data = crc16Spec data ∧ (crc16 data).length = 2 := by
  intro data
  refine ⟨?_, rfl⟩
  have hfold : crcFold 0xFFFF data = data.foldl crcByteSpec 0xFFFF := by
    rw [crcFold, crcByte_eq_spec]
  have hlt : crcFold 0xFFFF data < 65536 := crcFold_lt data _ (by norm_num)
  have hinv : 65535 - data.foldl crcByteSpec 0xFFFF < 65536 := by omega
  simp only [crc16, crcOut, crc16Spec]
  rw [xor_ffff hlt, hfold, swap_bridge hinv]

lemma shiftRight_one_xor (a b : Nat) : (a ^^^ b) >>> 1 = a >>> 1 ^^^ b >>> 1 := by
  simp [Nat.shiftRight_one, Nat.xor_div_two]

lemma xor_shuffle (a b x y : Nat) : (a ^^^ b) ^^^ (x ^^^ y) = (a ^^^ x) ^^^ (b ^^^ y) := by
  rw [Nat.xor_assoc, ← Nat.xor_assoc b x y, Nat.xor_comm b x, Nat.xor_assoc x b y,
    ← Nat.xor_assoc]

lemma crcRound_cond (c t : Nat) : (c &&& 1) ^^^ (t &&& 1) = (c ^^^ t) % 2 := by
  rw [← Nat.and_xor_distrib_right, Nat.and_one_is_mod]

lemma crcRound_xor (c1 c2 t1 t2 : Nat) :
    crcRound c1 t1 ^^^ crcRound c2 t2 = crcRound (c1 ^^^ c2) (t1 ^^^ t2) := by
  have e1 : ∀ c t, crcRound c t = (c >>> 1) ^^^ (if (c ^^^ t) % 2 = 1 then 0x8408 else 0) := by
    intro c t
    unfold crcRound
    rw [crcRound_cond]
    rcases Nat.mod_two_eq_zero_or_one (c ^^^ t) with h | h <;> simp [h]
  rw [e1, e1, e1, xor_shuffle, ← shiftRight_one_xor]
  congr 1
  rw [xor_shuffle]
  rcases Nat.mod_two_eq_zero_or_one (c1 ^^^ t1) with h1 | h1 <;>
    rcases Nat.mod_two_eq_zero_or_one (c2 ^^^ t2) with h2 | h2 <;>
      simp [Nat.xor_mod_two_eq_one, h1, h2, Nat.xor_self] <;>
        split <;> omega

lemma crcBits_xor (n : Nat) : ∀ c1 c2 u1 u2,
    crcBits n c1 u1 ^^^ crcBits n c2 u2 = crcBits n (c1 ^^^ c2) (u1 ^^^ u2) := by
  induction n with
  | zero => intro c1 c2 u1 u2; rfl
  | succ m ih =>
    intro c1 c2 u1 u2
    show crcBits m (crcRound c1 u1) (u1 >>> 1) ^^^ crcBits m (crcRound c2 u2) (u2 >>> 1) =
      crcBits m (crcRound (c1 ^^^ c2) (u1 ^^^ u2)) ((u1 ^^^ u2) >>> 1)
    rw [ih, crcRound_xor, shiftRight_one_xor]

lemma crcByte_xor (c1 c2 b1 b2 : Nat) :
    crcByte c1 b1 ^^^ crcByte c2 b2 = crcByte (c1 ^^^ c2) (b1 ^^^ b2) := by
  unfold crcByte
  rw [crcBits_xor]
  congr 1
  rw [← Nat.and_xor_distrib_left]

lemma crcRound_zero_ne (d : Nat) (h0 : d ≠ 0) (h : d < 65536) : crcRound d 0 ≠ 0 := by
  unfold crcRound
  rcases Nat.mod_two_eq_zero_or_one d with hpar | hpar
  · have hc : (d &&& 1) ^^^ (0 &&& 1) = 0 := by
      rw [Nat.and_one_is_mod, hpar]
      rfl
    simp only [hc, ne_eq, not_true_eq_false, not_false_eq_true, if_neg, if_pos]
    rw [Nat.shiftRight_one]
    omega
  · have hc : (d &&& 1) ^^^ (0 &&& 1) = 1 := by
      rw [Nat.and_one_is_mod, hpar]
      rfl
    simp only [hc, ne_eq, one_ne_zero, not_false_eq_true, if_pos]
    exact (xor_ne_zero_iff _ _).mpr (by rw [Nat.shiftRight_one]; omega)

lemma crcBits_zero_ne (n : Nat) : ∀ d, d ≠ 0 → d < 65536 → crcBits n d 0 ≠ 0 := by
  induction n with
  | zero => intro d h _; exact h
  | succ m ih =>
    intro d h hb
    show crcBits m (crcRound d 0) (0 >>> 1) ≠ 0
    rw [Nat.zero_shiftRight]
    exact ih _ (crcRound_zero_ne d h hb) (crcRound_lt d 0 hb)

lemma crcByte_zero_ne (d : Nat) (h0 : d ≠ 0) (h : d < 65536) : crcByte d 0 ≠ 0 := by
  unfold crcByte
  rw [Nat.and_zero]
  exact crcBits_zero_ne 8 d h0 h

lemma crcFold_zeros_zero (k : Nat) : crcFold 0 (List.replicate k 0) = 0 := by
  induction k with
  | zero => rfl
  | succ m ih =>
    show crcFold (crcByte 0 0) (List.replicate m 0) = 0
    rw [show crcByte 0 0 = 0 by decide]
    exact ih

lemma crcFold_zeros_ne (k : Nat) : ∀ d, d ≠ 0 → d < 65536 →
    crcFold d (List.replicate k 0) ≠ 0 := by
  induction k with
  | zero => intro d h _; exact h
  | succ m ih =>
    intro d h hb
    show crcFold (crcByte d 0) (List.replicate m 0) ≠ 0
    exact ih _ (crcByte_zero_ne d h hb) (crcBits_lt 8 d _ hb)

lemma zipWith_xor_self (l : Bytes) : List.zipWith (· ^^^ ·) l l = List.replicate l.length 0 := by
  induction l with
  | nil => rfl
  | cons a t ih => simp [List.zipWith, Nat.xor_self, ih, List.replicate_succ]

lemma zipWith_xor_set (l : Bytes) : ∀ i x, i < l.length →
    List.zipWith (· ^^^ ·) l (l.set i (l.getD i 0 ^^^ x)) =
      List.replicate i 0 ++ x :: List.replicate (l.length - i - 1) 0 := by
  induction l with
  | nil => intro i x hi; simp at hi
  | cons a t ih =>
    intro i x hi
    cases i with
    | zero =>
      show (a ^^^ (a ^^^ x)) :: List.zipWith (· ^^^ ·) t t = x :: List.replicate t.length 0
      rw [← Nat.xor_assoc, Nat.xor_self, Nat.zero_xor, zipWith_xor_self]
    | succ m =>
      have hm : m < t.length := by
        simpa using Nat.lt_of_succ_lt_succ (by simpa using hi)
      have hlen : (a :: t).length - (m + 1) - 1 = t.length - m - 1 := by
        simp only [List.length_cons]
        omega
      rw [hlen]
      show (a ^^^ a) :: List.zipWith (· ^^^ ·) t (t.set m (t.getD m 0 ^^^ x)) =
        0 :: (List.replicate m 0 ++ x :: List.replicate (t.length - m - 1) 0)
      rw [Nat.xor_self, ih m x hm]

lemma crcFold_xor : ∀ (m1 m2 : Bytes), m1.length = m2.length → ∀ c1 c2,
    crcFold c1 m1 ^^^ crcFold c2 m2 = crcFold (c1 ^^^ c2) (List.zipWith (· ^^^ ·) m1 m2) := by
  intro m1
  induction m1 with
  | nil =>
    intro m2 hlen c1 c2
    rw [List.length_nil] at hlen
    rw [List.eq_nil_of_length_eq_zero hlen.symm]
    rfl
  | cons a t ih =>
    intro m2 hlen c1 c2
    cases m2 with
    | nil => simp at hlen
    | cons b t2 =>
      show crcFold (crcByte c1 a) t ^^^ crcFold (crcByte c2 b) t2 = _
      rw [ih t2 (by simpa using hlen), crcByte_xor]
      rfl

lemma swap_lo (w : Nat) (hw : w < 65536) : (w % 256 * 256 + w / 256) % 256 = w / 256 := by
  omega

lemma swap_hi (w : Nat) (hw : w < 65536) : (w % 256 * 256 + w / 256) / 256 % 256 = w % 256 := by
  have hq : (w % 256 * 256 + w / 256) / 256 = w % 256 := by omega
  rw [hq]
  omega

lemma swap_inj {u v : Nat} (hu : u < 65536) (hv : v < 65536)
    (h1 : (u % 256 * 256 + u / 256) % 256 = (v % 256 * 256 + v / 256) % 256)
    (h2 : (u % 256 * 256 + u / 256) / 256 % 256 = (v % 256 * 256 + v / 256) / 256 % 256) :
    u = v := by
  rw [swap_lo u hu, swap_lo v hv] at h1
  rw [swap_hi u hu, swap_hi v hv] at h2
  omega

lemma crcOut_inj {x y : Nat} (hx : x < 65536) (hy : y < 65536) (h : crcOut x = crcOut y) :
    x = y := by
  simp only [crcOut] at h
  rw [xor_ffff hx, xor_ffff hy, swap_bridge (by omega), swap_bridge (by omega)] at h
  simp only [List.cons.injEq, and_true] at h
  have := swap_inj (u := 65535 - x) (v := 65535 - y) (by omega) (by omega) h.1 h.2
  omega

lemma crc16_flip_ne (data : Bytes) (i j : Nat) (hi : i < data.length) (hj : j < 8) :
    crc16 (data.set i (data.getD i 0 ^^^ 2 ^ j)) ≠ crc16 data := by
  have hdelta := crcFold_xor data (data.set i (data.getD i 0 ^^^ 2 ^ j))
    (by rw [List.length_set]) 0xFFFF 0xFFFF
  rw [zipWith_xor_set data i (2 ^ j) hi, Nat.xor_self] at hdelta
  have hbyte : crcByte 0 (2 ^ j) ≠ 0 ∧ crcByte 0 (2 ^ j) < 65536 := by
    interval_cases j <;> exact ⟨by decide, by decide⟩
  have hrhs : crcFold 0 (List.replicate i 0 ++ 2 ^ j :: List.replicate (data.length - i - 1) 0) ≠ 0 := by
    rw [crcFold, List.foldl_append]
    show crcFold (crcFold 0 (List.replicate i 0)) (2 ^ j :: List.replicate (data.length - i - 1) 0) ≠ 0
    rw [crcFold_zeros_zero]
    show crcFold (crcByte 0 (2 ^ j)) (List.replicate (data.length - i - 1) 0) ≠ 0
    exact crcFold_zeros_ne _ _ hbyte.1 hbyte.2
  have hfold_ne : crcFold 0xFFFF data ≠ crcFold 0xFFFF (data.set i (data.getD i 0 ^^^ 2 ^ j)) := by
    apply (xor_ne_zero_iff _ _).mp
    rw [hdelta]
    exact hrhs
  intro hcrc
  unfold crc16 at hcrc
  exact hfold_ne (crcOut_inj (crcFold_lt _ _ (by norm_num)) (crcFold_lt _ _ (by norm_num))
    hcrc.symm)

theorem streamcobs_write_single_call (rep : Bytes → Int) (log : List Bytes)
    (data : Bytes) :
    (StreamCOBS.write rep log data).1 = log ++ [[0] ++ cobsEncode data ++ [0]] ∧
    (StreamCOBS.write rep log data).2 = rep ([0] ++ cobsEncode data ++ [0]) :=
  ⟨rfl, rfl⟩

lemma syncPhase_none : ∀ (n : Nat) (s : Stream1),
    (∀ ev ∈ s.take n, ev ≠ ReadEv.chunk [0]) → syncPhase n s = none := by
  intro n
  induction n with
  | zero => intro s _; rfl
  | succ m ih =>
    intro s h
    cases s with
    | nil =>
      show syncPhase m [] = none
      exact ih [] (by intro ev hev; simp at hev)
    | cons e rest =>
      have he : e ≠ ReadEv.chunk [0] := h e (List.mem_cons_self _ _)
      have hrest : ∀ ev ∈ rest.take m, ev ≠ ReadEv.chunk [0] := by
        intro ev hev
        exact h ev (List.mem_cons_of_mem _ hev)
      cases e with
      | raised => exact ih rest hrest
      | chunk bs =>
        have hbs : bs ≠ [0] := fun hcontra => he (by rw [hcontra])
        show (if bs = [0] then some rest else syncPhase m rest) = none
        rw [if_neg hbs]
        exact ih rest hrest

lemma read_of_sync_none {mb : Nat} {s : Stream1} (h : syncPhase (mb - 5) s = none) :
    StreamCOBS.read mb s = .ok none := by
  unfold StreamCOBS.read
  rw [h]

lemma syncPhase_zero_head (k : Nat) (s : Stream1) :
    syncPhase (k + 1) (ReadEv.chunk [0] :: s) = some s := by
  show (if ([0] : Bytes) = [0] then some s else syncPhase k s) = some s
  rw [if_pos rfl]

lemma accumPhase_one {mb : Nat} (raw : Bytes) (count : Nat) (s : Stream1) (y : Nat)
    (hy : y ≠ 0) (hlt : count < mb) :
    accumPhase mb raw count (ReadEv.chunk [y] :: s) =
      accumPhase mb (raw ++ [y]) (count + 1) s := by
  show (if ([y] : Bytes) ≠ [0] then
      if count = mb ∨ ([y] : Bytes).length = 0 then none
      else accumPhase mb (raw ++ [([y] : Bytes).headD 0]) (count + 1) s
    else some raw) = accumPhase mb (raw ++ [y]) (count + 1) s
  rw [if_pos (by simpa using hy), if_neg (by simp; omega)]
  rfl

lemma accumPhase_walk (mb : Nat) : ∀ (ys raw : Bytes) (count : Nat) (s : Stream1),
    (∀ y ∈ ys, y ≠ 0) → count + ys.length ≤ mb →
    accumPhase mb raw count (ys.map (fun y => ReadEv.chunk [y]) ++ s) =
      accumPhase mb (raw ++ ys) (count + ys.length) s := by
  intro ys
  induction ys with
  | nil => intro raw count s _ _; simp
  | cons y t ih =>
    intro raw count s hy hle
    have hy0 : y ≠ 0 := hy y (List.mem_cons_self _ _)
    show accumPhase mb raw count
      (ReadEv.chunk [y] :: (t.map (fun y => ReadEv.chunk [y]) ++ s)) = _
    rw [accumPhase_one raw count _ y hy0 (by simp at hle; omega),
      ih (raw ++ [y]) (count + 1) s (fun z hz => hy z (List.mem_cons_of_mem _ hz))
        (by simp at hle ⊢; omega)]
    simp only [List.append_assoc, List.singleton_append, List.length_cons]
    congr 1
    omega

theorem streamcobs_read_no_frame :
    (∀ mb s, (∀ ev ∈ s.take (mb - 5), ev ≠ ReadEv.chunk [0]) →
      StreamCOBS.read mb s = .ok none) ∧
    (∀ mb (ys : Bytes) c s, 6 ≤ mb → ys.length = mb →
      (∀ y ∈ ys, y ≠ 0) → c ≠ 0 →
      StreamCOBS.read mb (ReadEv.chunk [0] ::
        (ys.map (fun y => ReadEv.chunk [y]) ++ ReadEv.chunk [c] :: s)) = .ok none) ∧
    (∀ mb (ys : Bytes) s, 6 ≤ mb → ys.length ≤ mb → (∀ y ∈ ys, y ≠ 0) →
      StreamCOBS.read mb (ReadEv.chunk [0] ::
        (ys.map (fun y => ReadEv.chunk [y]) ++ ReadEv.chunk [] :: s)) = .ok none) ∧
    (∀ mb b s, 6 ≤ mb → b ≠ 0 →
      StreamCOBS.read mb (ReadEv.chunk [0] :: ReadEv.chunk [b] ::
        ReadEv.chunk [0] :: s) = .ok none) := by
  refine ⟨?_, ?_, ?_, ?_⟩
  · intro mb s h
    exact read_of_sync_none (syncPhase_none _ s h)
  · intro mb ys c s h6 hlen hys hc
    obtain ⟨k, hk⟩ : ∃ k, mb - 5 = k + 1 := ⟨mb - 6, by omega⟩
    unfold StreamCOBS.read
    rw [hk, syncPhase_zero_head]
    dsimp only
    have hacc := accumPhase_walk mb ys [] 0 (ReadEv.chunk [c] :: s) hys (by omega)
    rw [hacc]
    have hfinal : accumPhase mb ([] ++ ys) (0 + ys.length) (ReadEv.chunk [c] :: s) = none := by
      show (if ([c] : Bytes) ≠ [0] then
          if 0 + ys.length = mb ∨ ([c] : Bytes).length = 0 then none
          else accumPhase mb (([] ++ ys) ++ [([c] : Bytes).headD 0]) (0 + ys.length + 1) s
        else some ([] ++ ys)) = none
      rw [if_pos (by simpa using hc), if_pos (Or.inl (by omega))]
    rw [hfinal]
  · intro mb ys s h6 hlen hys
    obtain ⟨k, hk⟩ : ∃ k, mb - 5 = k + 1 := ⟨mb - 6, by omega⟩
    unfold StreamCOBS.read
    rw [hk, syncPhase_zero_head]
    dsimp only
    have hacc := accumPhase_walk mb ys [] 0 (ReadEv.chunk [] :: s) hys (by omega)
    rw [hacc]
    have hfinal : accumPhase mb ([] ++ ys) (0 + ys.length) (ReadEv.chunk [] :: s) = none := by
      show (if ([] : Bytes) ≠ [0] then
          if 0 + ys.length = mb ∨ ([] : Bytes).length = 0 then none
          else accumPhase mb (([] ++ ys) ++ [([] : Bytes).headD 0]) (0 + ys.length + 1) s
        else some ([] ++ ys)) = none
      have hcond : 0 + ys.length = mb ∨ ([] : Bytes).length = 0 := Or.inr rfl
      rw [if_pos (by simp), if_pos hcond]
    rw [hfinal]
  · intro mb b s h6 hb
    obtain ⟨k, hk⟩ : ∃ k, mb - 5 = k + 1 := ⟨mb - 6, by omega⟩
    unfold StreamCOBS.read
    rw [hk, syncPhase_zero_head]
    dsimp only
    rw [accumPhase_one [] 0 _ b hb (by omega)]
    have hfinal : accumPhase mb ([] ++ [b]) (0 + 1) (ReadEv.chunk [0] :: s) = some [b] := by
      show (if ([0] : Bytes) ≠ [0] then
          if 0 + 1 = mb ∨ ([0] : Bytes).length = 0 then none
          else accumPhase mb (([] ++ [b]) ++ [([0] : Bytes).headD 0]) (0 + 1 + 1) s
        else some ([] ++ [b])) = some [b]
      rw [if_neg (by simp)]
      rfl
    rw [hfinal]
    rfl

theorem streamcobs_read_reaches_max_counterexample :
    StreamCOBS.read 7 (ReadEv.chunk [0] ::
        (List.replicate 7 (ReadEv.chunk [1]) ++ [ReadEv.chunk [0]])) =
      .ok (some (List.replicate 6 0)) ∧
    StreamCOBS.read 7 (ReadEv.chunk [0] ::
        (List.replicate 7 (ReadEv.chunk [1]) ++ [ReadEv.chunk [0]])) ≠ .ok none := by
  constructor
  · decide
  · decide

theorem streamcobs_read_no_frame_witness :
    StreamCOBS.read 6 [ReadEv.chunk [5]] = .ok none ∧
    StreamCOBS.read 6 (ReadEv.chunk [0] ::
      (List.map (fun y => ReadEv.chunk [y]) [1, 2, 3, 4, 5, 6] ++
        ReadEv.chunk [9] :: [])) = .ok none ∧
    StreamCOBS.read 6 (ReadEv.chunk [0] ::
      (List.map (fun y => ReadEv.chunk [y]) [1] ++ ReadEv.chunk [] :: [])) = .ok none ∧
    StreamCOBS.read 6 (ReadEv.chunk [0] :: ReadEv.chunk [3] ::
      ReadEv.chunk [0] :: []) = .ok none :=
  ⟨streamcobs_read_no_frame.1 6 [ReadEv.chunk [5]] (by decide),
   streamcobs_read_no_frame.2.1 6 [1, 2, 3, 4, 5, 6] 9 [] (by decide) (by decide)
     (by decide) (by decide),
   streamcobs_read_no_frame.2.2.1 6 [1] [] (by decide) (by decide) (by decide),
   streamcobs_read_no_frame.2.2.2 6 3 [] (by decide) (by decide)⟩

lemma structUnpack_error_eq {fmt : List Char} {data : Bytes} {e : PyErr}
    (h : structUnpack fmt data = .error e) : e = .structError := by
  revert h
  unfold structUnpack
  split
  · intro h; cases h
  · intro h; cases h; rfl

lemma structUnpack_ok_eq {fmt : List Char} {data : Bytes} {vs : List PyValue}
    (h : structUnpack fmt data = .ok vs) : vs = structUnpackAux fmt data := by
  revert h
  unfold structUnpack
  split
  · intro h; cases h; rfl
  · intro h; cases h

theorem init_unpack_atomic :
    (∀ (p : Packet) (a : InitArg) (e : PyErr),
      (p.init a).2 = .error e → (p.init a).1 = p) ∧
    (∀ (p : Packet) (buf : Bytes) (e : PyErr),
      (p.unpack buf).2 = .error e → (p.unpack buf).1 = p) := by
  constructor
  · intro p a e
    cases a with
    | map m =>
      simp only [Packet.init]
      split
      · intro h; cases h
      · intro _; rfl
    | seq l =>
      simp only [Packet.init]
      split
      · intro h; cases h
      · intro _; rfl
    | other => intro _; rfl
  · intro p buf e
    simp only [Packet.unpack]
    split
    · intro _; rfl
    · split
      · intro _; rfl
      · intro h; cases h

theorem init_unpack_atomic_witness :
    (({ fields := ["a"], fmt := ['B'], values := none } : Packet).init
        InitArg.other).1 = { fields := ["a"], fmt := ['B'], values := none } ∧
    (({ fields := ["a"], fmt := ['B'], values := none } : Packet).unpack
        [0, 0, 0, 0]).1 = { fields := ["a"], fmt := ['B'], values := none } :=
  ⟨init_unpack_atomic.1 { fields := ["a"], fmt := ['B'], values := none }
      InitArg.other
      (.valueError "Input to init() should be either a sequence or a mapping")
      (by decide),
   init_unpack_atomic.2 { fields := ["a"], fmt := ['B'], values := none }
      [0, 0, 0, 0] (.valueError "CRC checksum failed!") (by decide)⟩

theorem unpack_from_none_vs_empty :
    (∀ p : Packet, p.unpack_from none = (p, .ok none)) ∧
    (∀ p : Packet, (p.unpack_from (some [])).2 =
      .error (.valueError "CRC checksum failed!")) := by
  constructor
  · intro p; rfl
  · intro p
    have hne : crc16 ([] : Bytes) ≠ ([] : Bytes) := by decide
    have hunp : p.unpack [] = (p, .error (.valueError "CRC checksum failed!")) := by
      simp only [Packet.unpack, List.take_nil, List.drop_nil]
      rw [if_pos hne]
    simp only [Packet.unpack_from, hunp]

theorem unpack_from_empty_counterexample :
    (({ fields := ["a"], fmt := ['B'], values := none } : Packet).unpack_from
      (some [])).2 = .error (.valueError "CRC checksum failed!") := by decide

theorem unpack_checksum_iff :
    ∀ (p : Packet) (buf : Bytes), 2 ≤ buf.length →
      (((p.unpack buf).2 = .error (.valueError "CRC checksum failed!")) ↔
        crc16 (buf.take (buf.length - 2)) ≠ buf.drop (buf.length - 2)) ∧
      (∀ d, (p.unpack buf).2 = .ok d →
        (p.unpack buf).1.values = some d ∧
        d = dictMerge (p.values.getD [])
          (List.zip p.fields (structUnpackAux p.fmt (buf.take (buf.length - 2))))) := by
  intro p buf _
  by_cases hc : crc16 (buf.take (buf.length - 2)) ≠ buf.drop (buf.length - 2)
  · have hunp : p.unpack buf = (p, .error (.valueError "CRC checksum failed!")) := by
      simp only [Packet.unpack]
      rw [if_pos hc]
    rw [hunp]
    exact ⟨⟨fun _ => hc, fun _ => rfl⟩, fun d hd => Except.noConfusion hd⟩
  · cases hs : structUnpack p.fmt (buf.take (buf.length - 2)) with
    | error e =>
      have he : e = .structError := structUnpack_error_eq hs
      subst he
      have hunp : p.unpack buf = (p, .error .structError) := by
        simp only [Packet.unpack]
        rw [if_neg hc, hs]
      rw [hunp]
      refine ⟨⟨fun h => ?_, fun h => absurd h hc⟩, fun d hd => Except.noConfusion hd⟩
      exact absurd (Except.error.inj h) (by simp)
    | ok vs =>
      have hvs : vs = structUnpackAux p.fmt (buf.take (buf.length - 2)) :=
        structUnpack_ok_eq hs
      have hunp : p.unpack buf =
          ({ p with values := some (dictMerge (p.values.getD [])
              (List.zip p.fields vs)) },
            .ok (dictMerge (p.values.getD []) (List.zip p.fields vs))) := by
        simp only [Packet.unpack]
        rw [if_neg hc, hs]
      rw [hunp]
      refine ⟨⟨fun h => Except.noConfusion h, fun h => absurd h hc⟩, fun d hd => ?_⟩
      have hd1 := Except.ok.inj hd
      exact ⟨by rw [← hd1], by rw [← hd1, hvs]⟩

theorem unpack_checksum_iff_witness :
    (({ fields := ["a"], fmt := ['B'], values := none } : Packet).unpack
      [0, 0, 0, 0]).2 = .error (.valueError "CRC checksum failed!") :=
  (unpack_checksum_iff { fields := ["a"], fmt := ['B'], values := none }
    [0, 0, 0, 0] (by decide)).1.mpr (by decide)

lemma fieldsLookup_missing : ∀ (fields : List String) (m : Dict),
    (∃ f ∈ fields, dictGet m f = none) →
    ∃ k, k ∈ fields ∧ dictGet m k = none ∧
      fieldsLookup m fields = .error (.keyError k) := by
  intro fields
  induction fields with
  | nil =>
    intro m h
    rcases h with ⟨f, hf, _⟩
    simp at hf
  | cons g fs ih =>
    intro m h
    cases hg : dictGet m g with
    | none =>
      refine ⟨g, List.mem_cons_self _ _, hg, ?_⟩
      simp [fieldsLookup, hg]
    | some v =>
      have h2 : ∃ f ∈ fs, dictGet m f = none := by
        rcases h with ⟨f, hf, hnone⟩
        rcases List.mem_cons.mp hf with rfl | hf2
        · rw [hg] at hnone
          cases hnone
        · exact ⟨f, hf2, hnone⟩
      rcases ih m h2 with ⟨k, hk1, hk2, hk3⟩
      refine ⟨k, List.mem_cons_of_mem _ hk1, hk2, ?_⟩
      simp [fieldsLookup, hg, hk3]

theorem init_subset_pack_keyerror :
    ∀ (defn : List (String × String)) (p : Packet) (m : Dict) (f0 : String),
      mkPacket defn = .ok p →
      (∀ kv ∈ m, p.fields.contains kv.1) →
      f0 ∈ p.fields → dictGet m f0 = none →
      (p.init (.map m)).2 = .ok () ∧
      (p.init (.map m)).1.values = some m ∧
      ∃ k, k ∈ p.fields ∧
        ((p.init (.map m)).1.pack none).2 = .error (.keyError k) ∧
        (∀ msg, (.error (.keyError k) : Except PyErr Bytes) ≠
          .error (.valueError msg)) := by
  intro defn p m f0 _ hsub hf0 hnone
  have hall : (m.all fun kv => p.fields.contains kv.1) = true := by
    rw [List.all_eq_true]
    intro kv hkv
    exact hsub kv hkv
  have hinit : p.init (.map m) = ({ p with values := some m }, .ok ()) := by
    simp only [Packet.init]
    rw [if_pos hall]
  refine ⟨by rw [hinit], by rw [hinit], ?_⟩
  rcases fieldsLookup_missing p.fields m ⟨f0, hf0, hnone⟩ with ⟨k, hk1, hk2, hk3⟩
  refine ⟨k, hk1, ?_, fun msg h => by cases Except.error.inj h⟩
  rw [hinit]
  show ({ p with values := some m } : Packet).packNow.2 = .error (.keyError k)
  simp only [Packet.packNow]
  rw [hk3]

theorem init_subset_pack_keyerror_witness :
    (({ fields := ["a"], fmt := ['B'], values := none } : Packet).init
      (.map [])).2 = .ok () ∧
    (({ fields := ["a"], fmt := ['B'], values := none } : Packet).init
      (.map [])).1.values = some [] ∧
    ∃ k, k ∈ ["a"] ∧
      ((({ fields := ["a"], fmt := ['B'], values := none } : Packet).init
        (.map [])).1.pack none).2 = .error (.keyError k) ∧
      (∀ msg, (.error (.keyError k) : Except PyErr Bytes) ≠
        .error (.valueError msg)) :=
  init_subset_pack_keyerror [("a", "uint8")]
    { fields := ["a"], fmt := ['B'], values := none } [] "a"
    (by decide) (by intro kv hkv; cases hkv) (by decide) (by decide)

lemma packField_length {c : Char} {v : PyValue} {b : Bytes}
    (h : packField c v = .ok b) : b.length = fieldSize c := by
  unfold packField at h
  split at h
  · split at h
    · cases h; rfl
    · simp at h
  · split at h
    · cases h; rfl
    · simp at h
  · split at h
    · cases h; rfl
    · simp at h
  · split at h
    · cases h; rfl
    · simp at h
  · split at h
    · cases h; rfl
    · simp at h
  · split at h
    · cases h; rfl
    · simp at h
  · rename_i bb
    cases hf : f64ToF32 bb with
    | error e => rw [hf] at h; simp [Except.map] at h
    | ok w => rw [hf] at h; simp [Except.map] at h; cases h; rfl
  · rename_i n
    cases hi : intToF64 n with
    | error e => rw [hi] at h; simp at h
    | ok bb =>
      rw [hi] at h
      dsimp only at h
      cases hf : f64ToF32 bb with
      | error e => rw [hf] at h; simp [Except.map] at h
      | ok w => rw [hf] at h; simp [Except.map] at h; cases h; rfl
  · cases h; rfl
  · simp at h

lemma structPack_length : ∀ (fmt : List Char) (vs : List PyValue) (data : Bytes),
    structPack fmt vs = .ok data → data.length = calcsizeChars fmt := by
  intro fmt
  induction fmt with
  | nil =>
    intro vs data h
    cases vs with
    | nil => cases h; rfl
    | cons v vs' => simp [structPack] at h
  | cons c fs ih =>
    intro vs data h
    cases vs with
    | nil => simp [structPack] at h
    | cons v vs' =>
      unfold structPack at h
      cases hp : packField c v with
      | error e => rw [hp] at h; simp at h
      | ok b =>
        rw [hp] at h
        cases hr : structPack fs vs' with
        | error e => rw [hr] at h; simp at h
        | ok r =>
          rw [hr] at h
          cases h
          have h1 := packField_length hp
          have h2 := ih vs' r hr
          simp [calcsizeChars, List.length_append, h1, h2]

lemma crc16_length (data : Bytes) : (crc16 data).length = 2 := rfl

lemma packNow_ok {p : Packet} {buf : Bytes} (h : p.packNow.2 = .ok buf) :
    ∃ d vs data, p.values = some d ∧ fieldsLookup d p.fields = .ok vs ∧
      structPack p.fmt vs = .ok data ∧ buf = data ++ crc16 data := by
  unfold Packet.packNow at h
  split at h
  · cases h
  · rename_i d hd
    split at h
    · cases h
    · rename_i vs hvs
      split at h
      · cases h
      · rename_i data hdata
        cases h
        exact ⟨d, vs, data, hd, hvs, hdata, rfl⟩

theorem pack_layout_and_scenario :
    (∀ (p : Packet) (buf : Bytes), (p.pack none).2 = .ok buf →
      buf.length = p.calcsize + 2 ∧
      buf = buf.take p.calcsize ++ crc16 (buf.take p.calcsize)) ∧
    (mkPacket [("cxthrottle", "float32"), ("cxreqgear", "uint8")] =
      .ok { fields := ["cxthrottle", "cxreqgear"], fmt := ['f', 'B'],
            values := none } ∧
     ({ fields := ["cxthrottle", "cxreqgear"], fmt := ['f', 'B'],
        values := none } : Packet).init
          (.map [("cxthrottle", PyValue.float 4607182418800017408),
                 ("cxreqgear", PyValue.int 4)]) =
        ({ fields := ["cxthrottle", "cxreqgear"], fmt := ['f', 'B'],
           values := some [("cxthrottle", PyValue.float 4607182418800017408),
                           ("cxreqgear", PyValue.int 4)] }, .ok ()) ∧
     (({ fields := ["cxthrottle", "cxreqgear"], fmt := ['f', 'B'],
         values := some [("cxthrottle", PyValue.float 4607182418800017408),
                         ("cxreqgear", PyValue.int 4)] } : Packet).pack none).2 =
        .ok [0, 0, 128, 63, 4, 176, 213] ∧
     ([0, 0, 128, 63, 4, 176, 213] : Bytes).length = 7 ∧
     (({ fields := ["cxthrottle", "cxreqgear"], fmt := ['f', 'B'],
         values := some [("cxthrottle", PyValue.float 4607182418800017408),
                         ("cxreqgear", PyValue.int 4)] } : Packet).unpack
        [0, 0, 128, 63, 4, 176, 213]).2 =
        .ok [("cxthrottle", PyValue.float 4607182418800017408),
             ("cxreqgear", PyValue.int 4)] ∧
     pyDictEq [("cxthrottle", PyValue.float 4607182418800017408),
               ("cxreqgear", PyValue.int 4)]
              [("cxthrottle", PyValue.float 4607182418800017408),
               ("cxreqgear", PyValue.int 4)] = true) := by
  constructor
  · intro p buf h
    rcases packNow_ok h with ⟨d, vs, data, _, _, hdata, hbuf⟩
    have hlen : data.length = p.calcsize := structPack_length p.fmt vs data hdata
    have hl2 : (crc16 data).length = 2 := crc16_length data
    constructor
    · rw [hbuf, List.length_append, hlen, hl2]
    · have htake : buf.take p.calcsize = data := by
        rw [hbuf, List.take_left' hlen]
      rw [htake, ← hbuf]
  · refine ⟨by decide, by decide, by with_unfolding_all decide,
      by decide, by decide, by with_unfolding_all decide⟩

theorem pack_layout_witness :
    ([0, 0, 128, 63, 4, 176, 213] : Bytes).length =
      ({ fields := ["cxthrottle", "cxreqgear"], fmt := ['f', 'B'],
         values := some [("cxthrottle", PyValue.float 4607182418800017408),
                         ("cxreqgear", PyValue.int 4)] } : Packet).calcsize + 2 ∧
    ([0, 0, 128, 63, 4, 176, 213] : Bytes) =
      ([0, 0, 128, 63, 4, 176, 213] : Bytes).take
        ({ fields := ["cxthrottle", "cxreqgear"], fmt := ['f', 'B'],
           values := some [("cxthrottle", PyValue.float 4607182418800017408),
                           ("cxreqgear", PyValue.int 4)] } : Packet).calcsize ++
      crc16 (([0, 0, 128, 63, 4, 176, 213] : Bytes).take
        ({ fields := ["cxthrottle", "cxreqgear"], fmt := ['f', 'B'],
           values := some [("cxthrottle", PyValue.float 4607182418800017408),
                           ("cxreqgear", PyValue.int 4)] } : Packet).calcsize) :=
  pack_layout_and_scenario.1
    { fields := ["cxthrottle", "cxreqgear"], fmt := ['f', 'B'],
      values := some [("cxthrottle", PyValue.float 4607182418800017408),
                      ("cxreqgear", PyValue.int 4)] }
    [0, 0, 128, 63, 4, 176, 213] (by with_unfolding_all decide)

lemma mkPacket_shape : ∀ (defn : List (String × String)) (p : Packet),
    mkPacket defn = .ok p → p.fields.length = p.fmt.length := by
  intro defn
  induction defn with
  | nil => intro p h; cases h; rfl
  | cons nt rest ih =>
    intro p h
    obtain ⟨n, t⟩ := nt
    unfold mkPacket at h
    cases hl : lookupType t with
    | none => rw [hl] at h; cases h
    | some c =>
      rw [hl] at h
      cases hr : mkPacket rest with
      | error e => rw [hr] at h; cases h
      | ok q =>
        rw [hr] at h
        cases h
        have := ih q hr
        simp [this]

lemma dictGet_zip : ∀ (fs : List String) (vs : List PyValue) (f : String) (v : PyValue),
    fs.Nodup → (f, v) ∈ List.zip fs vs → dictGet (List.zip fs vs) f = some v := by
  intro fs
  induction fs with
  | nil => intro vs f v _ hm; simp [List.zip] at hm
  | cons g fs' ih =>
    intro vs f v hnd hm
    cases vs with
    | nil => simp [List.zip] at hm
    | cons w vs' =>
      have hzip : List.zip (g :: fs') (w :: vs') = (g, w) :: List.zip fs' vs' := rfl
      rw [hzip] at hm
      rcases List.mem_cons.mp hm with heq | hm2
      · injection heq with h1 h2
        subst h1
        subst h2
        show (if f = f then some v else dictGet (List.zip fs' vs') f) = some v
        rw [if_pos rfl]
      · have hfne : g ≠ f := by
          intro hgf
          subst hgf
          exact (List.nodup_cons.mp hnd).1 (List.of_mem_zip hm2).1
        show (if g = f then some w else dictGet (List.zip fs' vs') f) = some v
        rw [if_neg hfne]
        exact ih vs' f v (List.nodup_cons.mp hnd).2 hm2

lemma fieldsLookup_of_pointwise : ∀ (fs : List String) (vs : List PyValue) (d : Dict),
    fs.length = vs.length →
    (∀ f v, (f, v) ∈ List.zip fs vs → dictGet d f = some v) →
    fieldsLookup d fs = .ok vs := by
  intro fs
  induction fs with
  | nil =>
    intro vs d hlen _
    cases vs with
    | nil => rfl
    | cons w vs' => simp at hlen
  | cons g fs' ih =>
    intro vs d hlen hget
    cases vs with
    | nil => simp at hlen
    | cons w vs' =>
      have h1 : dictGet d g = some w := hget g w (List.mem_cons_self _ _)
      have h2 : fieldsLookup d fs' = .ok vs' :=
        ih vs' d (by simpa using hlen)
          (fun f v hm => hget f v (List.mem_cons_of_mem _ hm))
      unfold fieldsLookup
      rw [h1, h2]

lemma keys_not_mem_contains {ks : List String} {k : String} (h : k ∉ ks) :
    ks.contains k = false := by
  rw [← Bool.not_eq_true]
  intro hc
  exact h (List.elem_iff.mp hc)

lemma dictSet_append_of_not_mem (acc : Dict) (k : String) (v : PyValue)
    (h : k ∉ dictKeys acc) : dictSet acc k v = acc ++ [(k, v)] := by
  unfold dictSet
  rw [keys_not_mem_contains h]
  rfl

lemma dictMerge_fresh : ∀ (kvs : List (String × PyValue)) (acc : Dict),
    (∀ kv ∈ kvs, kv.1 ∉ dictKeys acc) → (kvs.map Prod.fst).Nodup →
    dictMerge acc kvs = acc ++ kvs := by
  intro kvs
  induction kvs with
  | nil => intro acc _ _; simp [dictMerge]
  | cons kv t ih =>
    obtain ⟨k, v⟩ := kv
    intro acc hfresh hnd
    show dictMerge (dictSet acc k v) t = acc ++ (k, v) :: t
    rw [dictSet_append_of_not_mem acc k v (hfresh (k, v) (List.mem_cons_self _ _))]
    have h1 : ∀ kv2 ∈ t, kv2.1 ∉ dictKeys (acc ++ [(k, v)]) := by
      intro kv2 h2 hmem
      have hkeys : dictKeys (acc ++ [(k, v)]) = dictKeys acc ++ [k] := by
        simp [dictKeys]
      rw [hkeys, List.mem_append] at hmem
      rcases hmem with hin | hin
      · exact hfresh kv2 (List.mem_cons_of_mem _ h2) hin
      · have : kv2.1 = k := by simpa using hin
        have hk2 : k ∈ t.map Prod.fst := this ▸ List.mem_map_of_mem _ h2
        exact (List.nodup_cons.mp (by simpa using hnd)).1 hk2
    rw [ih (acc ++ [(k, v)]) h1 (by simpa using (List.nodup_cons.mp (by simpa using hnd)).2)]
    simp

lemma zip_keys {fs : List String} {vs : List PyValue} (hlen : vs.length = fs.length) :
    (List.zip fs vs).map Prod.fst = fs :=
  List.map_fst_zip fs vs (le_of_eq hlen.symm)

lemma init_seq_zip {p : Packet} {vs : List PyValue} (hnd : p.fields.Nodup)
    (hlen : vs.length = p.fields.length) :
    p.init (.seq vs) = ({ p with values := some (List.zip p.fields vs) }, .ok ()) := by
  simp only [Packet.init]
  rw [if_pos hlen]
  have h1 : dictMerge [] (List.zip p.fields vs) = List.zip p.fields vs := by
    rw [dictMerge_fresh _ [] (by intro kv _ hmem; simp [dictKeys] at hmem)
      (by rw [zip_keys hlen]; exact hnd)]
    simp
  rw [h1]

lemma structPack_of_roundtrips : ∀ (fmt : List Char) (vs : List PyValue),
    fmt.length = vs.length →
    ((List.zip fmt vs).all fun cv => fieldRoundtrips cv.1 cv.2) = true →
    ∃ data, structPack fmt vs = .ok data ∧ data.length = calcsizeChars fmt ∧
      List.Forall₂ (fun v w => pyEq w v = true) vs (structUnpackAux fmt data) := by
  intro fmt
  induction fmt with
  | nil =>
    intro vs hlen _
    cases vs with
    | nil => exact ⟨[], rfl, rfl, List.Forall₂.nil⟩
    | cons w vs' => simp at hlen
  | cons c fs ih =>
    intro vs hlen hall
    cases vs with
    | nil => simp at hlen
    | cons v vs' =>
      have hzip : List.zip (c :: fs) (v :: vs') = (c, v) :: List.zip fs vs' := rfl
      rw [hzip, List.all_cons, Bool.and_eq_true] at hall
      obtain ⟨h1, h2⟩ := hall
      unfold fieldRoundtrips at h1
      cases hp : packField c v with
      | error e => rw [hp] at h1; cases h1
      | ok b =>
        rw [hp] at h1
        obtain ⟨data', hd1, hd2, hd3⟩ := ih vs' (by simpa using hlen) h2
        have hb := packField_length hp
        refine ⟨b ++ data', ?_, ?_, ?_⟩
        · unfold structPack
          rw [hp, hd1]
        · simp [calcsizeChars, hb, hd2]
        · show List.Forall₂ _ (v :: vs')
            (unpackField c ((b ++ data').take (fieldSize c)) ::
              structUnpackAux fs ((b ++ data').drop (fieldSize c)))
          rw [List.take_left' hb, List.drop_left' hb]
          exact List.Forall₂.cons h1 hd3

lemma structUnpackAux_length : ∀ (fmt : List Char) (data : Bytes),
    (structUnpackAux fmt data).length = fmt.length := by
  intro fmt
  induction fmt with
  | nil => intro data; rfl
  | cons c fs ih => intro data; simp [structUnpackAux, ih]

lemma map_update_of_not_mem : ∀ (d : Dict) (k : String) (v : PyValue),
    k ∉ dictKeys d →
    (d.map fun kv => if kv.1 = k then (k, v) else kv) = d := by
  intro d
  induction d with
  | nil => intro k v _; rfl
  | cons g t ih =>
    intro k v h
    have hg : g.1 ≠ k := by
      intro hh
      exact h (by simp [dictKeys, hh])
    have ht : k ∉ dictKeys t := by
      intro hh
      exact h (by simp [dictKeys] at hh ⊢; right; exact hh)
    simp only [List.map_cons, if_neg hg, ih k v ht]

lemma dictSet_head (k : String) (v w : PyValue) (t : Dict) (hk : k ∉ dictKeys t) :
    dictSet ((k, v) :: t) k w = (k, w) :: t := by
  unfold dictSet
  have hc : (dictKeys ((k, v) :: t)).contains k = true := by
    apply List.elem_iff.mpr
    simp [dictKeys]
  simp only [dictSet, hc, if_true, List.map_cons, map_update_of_not_mem t k w hk]

lemma dictSet_cons_ne (g : String × PyValue) (t : Dict) (k : String) (w : PyValue)
    (h : g.1 ≠ k) : dictSet (g :: t) k w = g :: dictSet t k w := by
  by_cases hmem : k ∈ dictKeys t
  · have hc1 : (dictKeys (g :: t)).contains k = true := by
      apply List.elem_iff.mpr
      simp [dictKeys]
      right
      simpa [dictKeys] using hmem
    have hc2 : (dictKeys t).contains k = true := by
      apply List.elem_iff.mpr
      simpa [dictKeys] using hmem
    simp only [dictSet, hc1, hc2, if_true, List.map_cons]
    simp [if_neg h]
  · have hc1 : (dictKeys (g :: t)).contains k = false := by
      apply keys_not_mem_contains
      intro hmem2
      rcases List.mem_cons.mp hmem2 with hh | hh
      · exact h hh.symm
      · exact hmem hh
    have hc2 : (dictKeys t).contains k = false := keys_not_mem_contains hmem
    simp only [dictSet, hc1, hc2, Bool.false_eq_true, if_false]
    rfl

lemma dictSet_mid : ∀ (pre : Dict) (f : String) (v w : PyValue) (rest : Dict),
    f ∉ dictKeys pre → f ∉ dictKeys rest →
    dictSet (pre ++ (f, v) :: rest) f w = pre ++ (f, w) :: rest := by
  intro pre
  induction pre with
  | nil => intro f v w rest _ hr; exact dictSet_head f v w rest hr
  | cons g pre' ih =>
    intro f v w rest hp hr
    have hg : g.1 ≠ f := by
      intro hh
      exact hp (by simp [dictKeys, hh])
    have hp' : f ∉ dictKeys pre' := by
      intro hh
      exact hp (by simp [dictKeys] at hh ⊢; right; exact hh)
    show dictSet (g :: (pre' ++ (f, v) :: rest)) f w = g :: (pre' ++ (f, w) :: rest)
    rw [dictSet_cons_ne g _ f w hg, ih f v w rest hp' hr]

lemma dictMerge_overwrite : ∀ (fs : List String) (vs ws : List PyValue) (pre : Dict),
    fs.Nodup → vs.length = fs.length → ws.length = fs.length →
    (∀ k ∈ fs, k ∉ dictKeys pre) →
    dictMerge (pre ++ List.zip fs vs) (List.zip fs ws) = pre ++ List.zip fs ws := by
  intro fs
  induction fs with
  | nil =>
    intro vs ws pre _ _ _ _
    simp [List.zip, dictMerge]
  | cons f fs' ih =>
    intro vs ws pre hnd hv hw hpre
    cases vs with
    | nil => simp at hv
    | cons v vs' =>
      cases ws with
      | nil => simp at hw
      | cons w ws' =>
        have hnd' := List.nodup_cons.mp hnd
        have hfz : f ∉ dictKeys (List.zip fs' vs') := by
          intro hh
          rw [show dictKeys (List.zip fs' vs') = (List.zip fs' vs').map Prod.fst from rfl,
            zip_keys (by simpa using hv)] at hh
          exact hnd'.1 hh
        have hfp : f ∉ dictKeys pre := hpre f (List.mem_cons_self _ _)
        show dictMerge (dictSet (pre ++ (f, v) :: List.zip fs' vs') f w)
          (List.zip fs' ws') = pre ++ (f, w) :: List.zip fs' ws'
        rw [dictSet_mid pre f v w (List.zip fs' vs') hfp hfz]
        have hre : pre ++ (f, w) :: List.zip fs' vs' =
            (pre ++ [(f, w)]) ++ List.zip fs' vs' := by simp
        rw [hre, ih vs' ws' (pre ++ [(f, w)]) hnd'.2 (by simpa using hv)
          (by simpa using hw) ?hfresh]
        · simp
        case hfresh =>
          intro k hk hmem
          have hkeys : dictKeys (pre ++ [(f, w)]) = dictKeys pre ++ [f] := by
            simp [dictKeys]
          rw [hkeys, List.mem_append] at hmem
          rcases hmem with hin | hin
          · exact hpre k (List.mem_cons_of_mem _ hk) hin
          · have : k = f := by simpa using hin
            subst this
            exact hnd'.1 hk

lemma mem_zip_get : ∀ (l1 : List String) (l2 : List PyValue) (a : String) (b : PyValue),
    (a, b) ∈ List.zip l1 l2 → ∃ (i : Nat) (h1 : i < l1.length) (h2 : i < l2.length),
      l1.get ⟨i, h1⟩ = a ∧ l2.get ⟨i, h2⟩ = b := by
  intro l1
  induction l1 with
  | nil => intro l2 a b hm; simp [List.zip] at hm
  | cons x t1 ih =>
    intro l2 a b hm
    cases l2 with
    | nil => simp [List.zip] at hm
    | cons y t2 =>
      rcases List.mem_cons.mp hm with heq | hm2
      · injection heq with h1 h2
        exact ⟨0, by simp, by simp, h1.symm, h2.symm⟩
      · obtain ⟨i, hi1, hi2, ha, hb⟩ := ih t2 a b hm2
        exact ⟨i + 1, by simpa using Nat.succ_lt_succ hi1,
          by simpa using Nat.succ_lt_succ hi2, ha, hb⟩

lemma zip_get_mem : ∀ (fs : List String) (vs : List PyValue) (i : Nat)
    (h1 : i < fs.length) (h2 : i < vs.length),
    (fs.get ⟨i, h1⟩, vs.get ⟨i, h2⟩) ∈ List.zip fs vs := by
  intro fs
  induction fs with
  | nil => intro vs i h1 h2; simp at h1
  | cons x t1 ih =>
    intro vs i h1 h2
    cases vs with
    | nil => simp at h2
    | cons y t2 =>
      cases i with
      | zero => exact List.mem_cons_self _ _
      | succ m =>
        exact List.mem_cons_of_mem _
          (ih t2 m (by simpa using h1) (by simpa using h2))

lemma pyDictEq_zip (fs : List String) (vs ws : List PyValue)
    (hnd : fs.Nodup) (hwlen : ws.length = fs.length)
    (hfa : List.Forall₂ (fun v w => pyEq w v = true) vs ws) :
    pyDictEq (List.zip fs ws) (List.zip fs vs) = true := by
  have hvw : vs.length = ws.length := hfa.length_eq
  unfold pyDictEq
  rw [Bool.and_eq_true]
  constructor
  · rw [List.all_eq_true]
    intro kv hm
    obtain ⟨k, w⟩ := kv
    obtain ⟨i, h1, h2, hk, hw⟩ := mem_zip_get fs ws k w hm
    have hvi : i < vs.length := by omega
    have hmem : (k, vs.get ⟨i, hvi⟩) ∈ List.zip fs vs := by
      have := zip_get_mem fs vs i h1 hvi
      rwa [hk] at this
    have hget := dictGet_zip fs vs k (vs.get ⟨i, hvi⟩) hnd hmem
    show (match dictGet (List.zip fs vs) k with
      | some v => pyEq w v
      | none => false) = true
    rw [hget]
    have := (List.forall₂_iff_get.mp hfa).2 i hvi h2
    rw [← hw]
    exact this
  · rw [List.all_eq_true]
    intro kv hm
    have hk : kv.1 ∈ fs := (List.of_mem_zip hm).1
    show (dictKeys (List.zip fs ws)).contains kv.1 = true
    rw [show dictKeys (List.zip fs ws) = fs from zip_keys hwlen]
    exact List.elem_iff.mpr hk

theorem roundtrip_amended :
    ∀ (defn : List (String × String)) (p p1 : Packet) (vs : List PyValue),
      mkPacket defn = .ok p →
      p.fields.Nodup →
      vs.length = p.fields.length →
      ((List.zip p.fmt vs).all fun cv => fieldRoundtrips cv.1 cv.2) = true →
      p.init (.seq vs) = (p1, .ok ()) →
      ∃ (buf : Bytes) (p2 : Packet) (snap : Dict),
        p1.pack none = (p1, .ok buf) ∧
        p1.unpack buf = (p2, .ok snap) ∧
        pyDictEq snap (p1.values.getD []) = true := by
  intro defn p p1 vs hmk hnd hlen hall hinit
  have hshape := mkPacket_shape defn p hmk
  have hfmtlen : p.fmt.length = vs.length := by omega
  rw [init_seq_zip hnd hlen] at hinit
  have hp1 : p1 = { p with values := some (List.zip p.fields vs) } :=
    (congrArg Prod.fst hinit).symm
  subst hp1
  obtain ⟨data, hdata, hdlen, hfa⟩ := structPack_of_roundtrips p.fmt vs hfmtlen hall
  have hlookup : fieldsLookup (List.zip p.fields vs) p.fields = .ok vs :=
    fieldsLookup_of_pointwise p.fields vs _ hlen.symm
      (fun f v hm => dictGet_zip p.fields vs f v hnd hm)
  have hpack : ({ p with values := some (List.zip p.fields vs) } : Packet).pack none =
      ({ p with values := some (List.zip p.fields vs) }, .ok (data ++ crc16 data)) := by
    simp only [Packet.pack, Packet.packNow]
    rw [hlookup]
    dsimp only
    rw [hdata]
  have hbuflen : (data ++ crc16 data).length - 2 = data.length := by
    rw [List.length_append, crc16_length]
    omega
  have htake : (data ++ crc16 data).take ((data ++ crc16 data).length - 2) = data := by
    rw [hbuflen, List.take_left]
  have hdrop : (data ++ crc16 data).drop ((data ++ crc16 data).length - 2) =
      crc16 data := by
    rw [hbuflen, List.drop_left]
  have hcrc : ¬(crc16 ((data ++ crc16 data).take ((data ++ crc16 data).length - 2)) ≠
      (data ++ crc16 data).drop ((data ++ crc16 data).length - 2)) := by
    rw [htake, hdrop]
    exact not_not_intro rfl
  have hstruct : structUnpack p.fmt data = .ok (structUnpackAux p.fmt data) := by
    unfold structUnpack
    rw [if_pos hdlen]
  have hws_len : (structUnpackAux p.fmt data).length = p.fields.length := by
    rw [structUnpackAux_length]
    omega
  have hmerge : dictMerge (List.zip p.fields vs)
      (List.zip p.fields (structUnpackAux p.fmt data)) =
      List.zip p.fields (structUnpackAux p.fmt data) := by
    have := dictMerge_overwrite p.fields vs (structUnpackAux p.fmt data) [] hnd hlen
      hws_len (by intro k _ hmem; simp [dictKeys] at hmem)
    simpa using this
  have hunp : ({ p with values := some (List.zip p.fields vs) } : Packet).unpack
      (data ++ crc16 data) =
      ({ p with values := some (List.zip p.fields (structUnpackAux p.fmt data)) },
        .ok (List.zip p.fields (structUnpackAux p.fmt data))) := by
    simp only [Packet.unpack]
    rw [if_neg hcrc, htake, hstruct]
    simp only [Option.getD_some, hmerge]
  refine ⟨data ++ crc16 data,
    { p with values := some (List.zip p.fields (structUnpackAux p.fmt data)) },
    List.zip p.fields (structUnpackAux p.fmt data), hpack, hunp, ?_⟩
  show pyDictEq (List.zip p.fields (structUnpackAux p.fmt data))
    (List.zip p.fields vs) = true
  exact pyDictEq_zip p.fields vs (structUnpackAux p.fmt data) hnd hws_len hfa

theorem roundtrip_counterexample :
    (({ fields := ["name"], fmt := ['s'], values := none } : Packet).init
      (.map [("name", PyValue.bytes [97, 98])])).1 =
        { fields := ["name"], fmt := ['s'],
          values := some [("name", PyValue.bytes [97, 98])] } ∧
    (({ fields := ["name"], fmt := ['s'],
        values := some [("name", PyValue.bytes [97, 98])] } : Packet).pack
      none).2 = .ok [97, 130, 247] ∧
    (({ fields := ["name"], fmt := ['s'],
        values := some [("name", PyValue.bytes [97, 98])] } : Packet).unpack
      [97, 130, 247]).2 = .ok [("name", PyValue.bytes [97])] ∧
    pyDictEq [("name", PyValue.bytes [97])]
      [("name", PyValue.bytes [97, 98])] = false := by
  refine ⟨by decide, by decide, by decide, by decide⟩

theorem roundtrip_amended_witness :
    ∃ (buf : Bytes) (p2 : Packet) (snap : Dict),
      ({ fields := ["a", "b"], fmt := ['B', 'h'],
         values := some [("a", PyValue.int 200), ("b", PyValue.int (-300))] } :
        Packet).pack none =
        ({ fields := ["a", "b"], fmt := ['B', 'h'],
           values := some [("a", PyValue.int 200), ("b", PyValue.int (-300))] },
          .ok buf) ∧
      ({ fields := ["a", "b"], fmt := ['B', 'h'],
         values := some [("a", PyValue.int 200), ("b", PyValue.int (-300))] } :
        Packet).unpack buf = (p2, .ok snap) ∧
      pyDictEq snap [("a", PyValue.int 200), ("b", PyValue.int (-300))] = true :=
  roundtrip_amended [("a", "uint8"), ("b", "int16")]
    { fields := ["a", "b"], fmt := ['B', 'h'], values := none }
    { fields := ["a", "b"], fmt := ['B', 'h'],
      values := some [("a", PyValue.int 200), ("b", PyValue.int (-300))] }
    [PyValue.int 200, PyValue.int (-300)]
    (by decide) (by decide) (by decide) (by decide) (by decide)

lemma list_set_xor_ne (l : Bytes) (k x : Nat) (hk : k < l.length) (hx : x ≠ 0) :
    l.set k (l.getD k 0 ^^^ x) ≠ l := by
  intro heq
  have h1 : (l.set k (l.getD k 0 ^^^ x)).getD k 0 = l.getD k 0 := by
    rw [heq]
  rw [List.getD_eq_getElem?_getD, List.getElem?_set_self hk,
    List.getD_eq_getElem?_getD, List.getElem?_eq_getElem hk] at h1
  simp only [Option.getD_some] at h1
  have h3 := congrArg (fun z => l[k] ^^^ z) h1
  simp only at h3
  rw [← Nat.xor_assoc, Nat.xor_self, Nat.zero_xor] at h3
  exact hx h3

lemma pack_ok_packNow {p : Packet} {arg : Option InitArg} {buf : Bytes}
    (h : (p.pack arg).2 = .ok buf) : ∃ p' : Packet, p'.packNow.2 = .ok buf := by
  cases arg with
  | none => exact ⟨p, h⟩
  | some a =>
    unfold Packet.pack at h
    dsimp only at h
    cases hi : p.init a with
    | mk p1 r =>
      rw [hi] at h
      cases r with
      | error e => simp at h
      | ok u =>
        cases u
        exact ⟨p1, by simpa using h⟩

theorem pack_bitflip_checksum :
    ∀ (p : Packet) (arg : Option InitArg) (q : Packet) (buf : Bytes) (i j : Nat),
      (p.pack arg).2 = .ok buf → i < buf.length → j < 8 →
      (q.unpack (buf.set i (buf.getD i 0 ^^^ 2 ^ j))).2 =
        .error (.valueError "CRC checksum failed!") := by
  intro p arg q buf i j hok hi hj
  obtain ⟨p', hpn⟩ := pack_ok_packNow hok
  obtain ⟨d, vs, data, _, _, _, hbuf⟩ := packNow_ok hpn
  subst hbuf
  have hcrlen : (crc16 data).length = 2 := crc16_length data
  by_cases hid : i < data.length
  · have hgd : (data ++ crc16 data).getD i 0 = data.getD i 0 := by
      rw [List.getD_eq_getElem?_getD, List.getElem?_append_left hid,
        ← List.getD_eq_getElem?_getD]
    rw [hgd, List.set_append_left _ _ hid]
    have hdlen' : (data.set i (data.getD i 0 ^^^ 2 ^ j)).length = data.length :=
      List.length_set ..
    have hlen2 : (data.set i (data.getD i 0 ^^^ 2 ^ j) ++ crc16 data).length - 2 =
        (data.set i (data.getD i 0 ^^^ 2 ^ j)).length := by
      rw [List.length_append, hcrlen]
      omega
    have htake : (data.set i (data.getD i 0 ^^^ 2 ^ j) ++ crc16 data).take
        ((data.set i (data.getD i 0 ^^^ 2 ^ j) ++ crc16 data).length - 2) =
        data.set i (data.getD i 0 ^^^ 2 ^ j) := by
      rw [hlen2, List.take_left]
    have hdrop : (data.set i (data.getD i 0 ^^^ 2 ^ j) ++ crc16 data).drop
        ((data.set i (data.getD i 0 ^^^ 2 ^ j) ++ crc16 data).length - 2) =
        crc16 data := by
      rw [hlen2, List.drop_left]
    have hne : crc16 (data.set i (data.getD i 0 ^^^ 2 ^ j)) ≠ crc16 data :=
      crc16_flip_ne data i j hid hj
    simp only [Packet.unpack]
    rw [htake, hdrop, if_pos hne]
  · push_neg at hid
    have hgd : (data ++ crc16 data).getD i 0 =
        (crc16 data).getD (i - data.length) 0 := by
      rw [List.getD_eq_getElem?_getD, List.getElem?_append_right hid,
        ← List.getD_eq_getElem?_getD]
    rw [hgd, List.set_append_right _ _ hid]
    have hk : i - data.length < (crc16 data).length := by
      rw [hcrlen]
      rw [List.length_append, hcrlen] at hi
      omega
    have hcrlen2 : ((crc16 data).set (i - data.length)
        ((crc16 data).getD (i - data.length) 0 ^^^ 2 ^ j)).length = 2 := by
      rw [List.length_set, hcrlen]
    have hlen2 : (data ++ (crc16 data).set (i - data.length)
        ((crc16 data).getD (i - data.length) 0 ^^^ 2 ^ j)).length - 2 =
        data.length := by
      rw [List.length_append, hcrlen2]
      omega
    have htake : (data ++ (crc16 data).set (i - data.length)
        ((crc16 data).getD (i - data.length) 0 ^^^ 2 ^ j)).take
        ((data ++ (crc16 data).set (i - data.length)
          ((crc16 data).getD (i - data.length) 0 ^^^ 2 ^ j)).length - 2) = data := by
      rw [hlen2, List.take_left]
    have hdrop : (data ++ (crc16 data).set (i - data.length)
        ((crc16 data).getD (i - data.length) 0 ^^^ 2 ^ j)).drop
        ((data ++ (crc16 data).set (i - data.length)
          ((crc16 data).getD (i - data.length) 0 ^^^ 2 ^ j)).length - 2) =
        (crc16 data).set (i - data.length)
          ((crc16 data).getD (i - data.length) 0 ^^^ 2 ^ j) := by
      rw [hlen2, List.drop_left]
    have hne : crc16 data ≠ (crc16 data).set (i - data.length)
        ((crc16 data).getD (i - data.length) 0 ^^^ 2 ^ j) :=
      fun h => list_set_xor_ne (crc16 data) (i - data.length) (2 ^ j) hk
        (Nat.two_pow_pos j).ne' h.symm
    simp only [Packet.unpack]
    rw [htake, hdrop, if_pos hne]

theorem pack_bitflip_checksum_witness :
    (({ fields := ["a"], fmt := ['B'], values := none } : Packet).unpack
      (([5, 167, 213] : Bytes).set 0 (([5, 167, 213] : Bytes).getD 0 0 ^^^ 2 ^ 0))).2 =
      .error (.valueError "CRC checksum failed!") :=
  pack_bitflip_checksum
    { fields := ["a"], fmt := ['B'], values := some [("a", PyValue.int 5)] } none
    { fields := ["a"], fmt := ['B'], values := none } [5, 167, 213] 0 0
    (by decide) (by decide) (by decide)

end Corncobs
